import Mathlib

/-!
# Connection pool (`main.go`): shallow embedding and verified properties

The Go program keeps a fixed number of database connections in a slice
(`pool.connections`) and limits checkout with a buffered channel that is
pre-loaded with one permit (`nil`) per connection.

Modelling conventions

* A `*sql.DB` is identified by a natural number (`DB`); a `*conn` is the
  record wrapping it.
* `chan interface{}` only ever carries `nil`, so a channel is its number of
  buffered items, its capacity and its closed flag.
* Every operation returns a `Res`: it completes (`done`), cannot proceed
  (`blocked`), raises a Go run-time panic (`panicked`) or terminates the
  process through `log.Fatal` (`fatal`).  Each outcome carries the state at
  the moment it arises.
* The mutex only brackets the two statements that touch `pool.connections`;
  a critical section is one atomic transition, so the mutex itself carries no
  state in the model.
* The outside world is the number of `sql.Open` calls made so far and the log
  of `db.Close()` calls.
* `make` panics when the requested capacity is above a bound fixed by the Go
  runtime.  The runtime is not part of the repository, so its two bounds are a
  parameter (`Runtime`); running out of physical memory is outside the model.
-/

namespace ConnPool

/-! ## Data model -/

/-- Identity of a `*sql.DB` object handed back by `sql.Open`. -/
abbrev DB := Nat

/-- Go `error` value: `nil` or some non-nil error. -/
inductive error where
  | nil
  | nonNil (code : Nat)
  deriving DecidableEq

/-- Source: `type conn struct { db *sql.DB }`. -/
structure conn where
  db : DB
  deriving DecidableEq

/-- Run-time panics the pool code can raise. -/
inductive PanicKind where
  | makesliceCapOutOfRange
  | makechanSizeOutOfRange
  | closeOfClosedChannel
  | sendOnClosedChannel
  | indexOutOfRange
  deriving DecidableEq

/-- Outcome of running a piece of Go code from a state of type `σ`. -/
inductive Res (σ α : Type) where
  | done (s : σ) (a : α)
  | blocked (s : σ)
  | panicked (k : PanicKind) (s : σ)
  | fatal (s : σ)
  deriving DecidableEq

/-- Buffered `chan interface{}` on which only `nil` is ever sent. -/
structure Chan where
  buf : Nat
  cap : Nat
  closed : Bool
  deriving DecidableEq

/-- Source: `type connPool struct`, without the mutex. -/
structure connPool where
  connections : List conn
  maxConnections : Int
  channel : Chan
  deriving DecidableEq

/-- External world: count of `sql.Open` calls and log of `db.Close()` calls. -/
structure World where
  opens : Nat
  closeLog : List DB
  deriving DecidableEq

/-- Capacity bounds of the Go runtime the program runs on:
`make([]*conn, 0, c)` panics exactly when `c < 0` or `c > maxSliceCap`, and
`make(chan interface{}, c)` panics exactly when `c < 0` or `c > maxChanCap`. -/
structure Runtime where
  maxSliceCap : Nat
  maxChanCap : Nat
  deriving DecidableEq

/-! ## Channel primitives -/

/-- Go `make(chan interface{}, cap)`. -/
def Chan.make (cap : Nat) : Chan :=
  { buf := 0, cap := cap, closed := false }

/-- Go `ch <- nil` with no receiver waiting. -/
def Chan.send (ch : Chan) : Res Chan Unit :=
  if ch.closed then .panicked .sendOnClosedChannel ch
  else if ch.buf < ch.cap then .done { ch with buf := ch.buf + 1 } ()
  else .blocked ch

/-- Go `<-ch` with no sender waiting. -/
def Chan.recv (ch : Chan) : Res Chan Unit :=
  if 0 < ch.buf then .done { ch with buf := ch.buf - 1 } ()
  else if ch.closed then .done ch ()
  else .blocked ch

/-- Go `close(ch)`. -/
def Chan.close (ch : Chan) : Res Chan Unit :=
  if ch.closed then .panicked .closeOfClosedChannel ch
  else .done { ch with closed := true } ()

/-! ## The program -/

/-- Source: `NewConn` (lines 109-116).  `factory k` is what the `k`-th call of
`sql.Open` yields; on an error the process exits through `log.Fatal`. -/
def NewConn (factory : Nat → Option DB) (w : World) : Res World DB :=
  match factory w.opens with
  | some db => .done { w with opens := w.opens + 1 } db
  | none => .fatal { w with opens := w.opens + 1 }

/-- Source: the `for` loop of `NewConnectionPool` (lines 32-35), with the
number of iterations still to run as first argument. -/
def NewConnectionPool.loop (factory : Nat → Option DB) :
    Nat → connPool → World → Res World connPool
  | 0, pool, w => .done w pool
  | k + 1, pool, w =>
    match NewConn factory w with
    | .done w1 db =>
      let pool1 := { pool with connections := pool.connections ++ [conn.mk db] }
      match pool1.channel.send with
      | .done ch _ => NewConnectionPool.loop factory k { pool1 with channel := ch } w1
      | .blocked _ => .blocked w1
      | .panicked e _ => .panicked e w1
      | .fatal _ => .fatal w1
    | .blocked w1 => .blocked w1
    | .panicked e w1 => .panicked e w1
    | .fatal w1 => .fatal w1

/-- Source: `NewConnectionPool` (lines 24-37).  The composite literal builds
the slice (line 28) before the channel (line 30), so a capacity that `make`
rejects panics there, before the loop makes any `sql.Open` call. -/
def NewConnectionPool (rt : Runtime) (factory : Nat → Option DB) (maxConns : Int) (w : World) :
    Res World (connPool × error) :=
  if maxConns < 0 ∨ (rt.maxSliceCap : Int) < maxConns then .panicked .makesliceCapOutOfRange w
  else if (rt.maxChanCap : Int) < maxConns then .panicked .makechanSizeOutOfRange w
  else
    let pool : connPool :=
      { connections := [], maxConnections := maxConns, channel := Chan.make maxConns.toNat }
    match NewConnectionPool.loop factory maxConns.toNat pool w with
    | .done w1 p => .done w1 (p, error.nil)
    | .blocked w1 => .blocked w1
    | .panicked e w1 => .panicked e w1
    | .fatal w1 => .fatal w1

/-- Source: one `pool.connections[i].db.Close()` call. -/
def World.closeDb (w : World) (c : conn) : World :=
  { w with closeLog := w.closeLog ++ [c.db] }

/-- Source: `connPool.Close` (lines 39-44). -/
def Close (pool : connPool) (w : World) : Res (connPool × World) Unit :=
  match pool.channel.close with
  | .done ch _ => .done ({ pool with channel := ch }, pool.connections.foldl World.closeDb w) ()
  | .blocked _ => .blocked (pool, w)
  | .panicked e _ => .panicked e (pool, w)
  | .fatal _ => .fatal (pool, w)

/-- Source: line 47 of `Get`, `<-pool.channel`. -/
def Get.recv (pool : connPool) : Res connPool Unit :=
  match pool.channel.recv with
  | .done ch _ => .done { pool with channel := ch } ()
  | .blocked _ => .blocked pool
  | .panicked e _ => .panicked e pool
  | .fatal _ => .fatal pool

/-- Source: lines 48-52 of `Get`, the critical section and the return. -/
def Get.locked (pool : connPool) : Res connPool (conn × error) :=
  match pool.connections with
  | [] => .panicked .indexOutOfRange pool
  | c :: rest => .done { pool with connections := rest } (c, error.nil)

/-- Source: `connPool.Get` (lines 46-53). -/
def Get (pool : connPool) : Res connPool (conn × error) :=
  match Get.recv pool with
  | .done pool1 _ => Get.locked pool1
  | .blocked pool1 => .blocked pool1
  | .panicked e pool1 => .panicked e pool1
  | .fatal pool1 => .fatal pool1

/-- Source: lines 56-58 of `Put`, the critical section. -/
def Put.locked (pool : connPool) (c : conn) : connPool :=
  { pool with connections := pool.connections ++ [c] }

/-- Source: line 59 of `Put`, `pool.channel <- nil`. -/
def Put.send (pool : connPool) : Res connPool Unit :=
  match pool.channel.send with
  | .done ch _ => .done { pool with channel := ch } ()
  | .blocked _ => .blocked pool
  | .panicked e _ => .panicked e pool
  | .fatal _ => .fatal pool

/-- Source: `connPool.Put` (lines 55-60). -/
def Put (pool : connPool) (c : conn) : Res connPool Unit :=
  Put.send (Put.locked pool c)

/-- Run `k` consecutive `Get` calls, collecting what each returns. -/
def getMany : Nat → connPool → Res connPool (List (conn × error))
  | 0, pool => .done pool []
  | k + 1, pool =>
    match Get pool with
    | .done p r =>
      match getMany k p with
      | .done p2 rs => .done p2 (r :: rs)
      | .blocked p2 => .blocked p2
      | .panicked e p2 => .panicked e p2
      | .fatal p2 => .fatal p2
    | .blocked p => .blocked p
    | .panicked e p => .panicked e p
    | .fatal p => .fatal p

/-! ## Call-level runs: completed `Get` and `Put` calls

`held` is the bookkeeping of which handles callers currently hold: a completed
`Get` adds the handle it returned, a `Put` of a held handle removes it. -/

/-- Pool together with the handles currently held by callers. -/
structure Sys where
  pool : connPool
  held : List conn
  deriving DecidableEq

/-- One call made by some caller. -/
inductive Call where
  | get
  | put (c : conn)
  deriving DecidableEq

/-- A completed call; `none` when the call does not complete, or when `Put` is
given a handle that is not currently held. -/
def Sys.step (s : Sys) : Call → Option Sys
  | .get =>
    match Get s.pool with
    | .done p r => some { pool := p, held := r.1 :: s.held }
    | _ => none
  | .put c =>
    if c ∈ s.held then
      match Put s.pool c with
      | .done p _ => some { pool := p, held := s.held.erase c }
      | _ => none
    else none

/-- A sequence of completed calls. -/
def Sys.run : Sys → List Call → Option Sys
  | s, [] => some s
  | s, a :: rest =>
    match s.step a with
    | some s1 => s1.run rest
    | none => none

/-! ## Statement-level interleavings

`Get` is the receive (line 47) followed by the critical section (lines 48-51);
`Put` is the critical section (lines 56-58) followed by the send (line 59).
`getting` counts the callers between the two steps of `Get`, `putting` the
callers between the two steps of `Put`. -/

/-- Pool together with the callers that are midway through `Get` or `Put`. -/
structure Conc where
  pool : connPool
  getting : Nat
  putting : Nat
  deriving DecidableEq

/-- One atomic step of some caller.  `handoff` is a send that is received
directly by a caller waiting on an empty channel, the only way a send
completes on a channel of capacity zero. -/
inductive Act where
  | getRecv
  | getLocked
  | putLocked (c : conn)
  | putSend
  | handoff
  deriving DecidableEq

/-- Effect of one atomic step; `blocked` when the step cannot be taken. -/
def Conc.step (s : Conc) : Act → Res Conc Unit
  | .getRecv =>
    match Get.recv s.pool with
    | .done p _ => .done { s with pool := p, getting := s.getting + 1 } ()
    | .blocked _ => .blocked s
    | .panicked e _ => .panicked e s
    | .fatal _ => .fatal s
  | .getLocked =>
    if 0 < s.getting then
      match Get.locked s.pool with
      | .done p _ => .done { s with pool := p, getting := s.getting - 1 } ()
      | .blocked _ => .blocked s
      | .panicked e _ => .panicked e s
      | .fatal _ => .fatal s
    else .blocked s
  | .putLocked c =>
    .done { s with pool := Put.locked s.pool c, putting := s.putting + 1 } ()
  | .putSend =>
    if 0 < s.putting then
      match Put.send s.pool with
      | .done p _ => .done { s with pool := p, putting := s.putting - 1 } ()
      | .blocked _ => .blocked s
      | .panicked e _ => .panicked e s
      | .fatal _ => .fatal s
    else .blocked s
  | .handoff =>
    if 0 < s.putting ∧ s.pool.channel.buf = 0 then
      if s.pool.channel.closed then .panicked .sendOnClosedChannel s
      else .done { s with putting := s.putting - 1, getting := s.getting + 1 } ()
    else .blocked s

/-- A sequence of atomic steps, each of which is taken. -/
def Conc.run : Conc → List Act → Option Conc
  | s, [] => some s
  | s, a :: rest =>
    match s.step a with
    | .done s1 _ => s1.run rest
    | _ => none

/-! ## Concrete inputs used by the examples -/

/-- Factory whose `k`-th call succeeds and yields the database object `k`. -/
def goodFactory : Nat → Option DB := fun k => some k

/-- Factory whose second call (index 1) fails and whose other calls succeed. -/
def secondFails : Nat → Option DB := fun k => if k = 1 then none else some k

/-- World at program start: nothing opened, nothing closed. -/
def World.start : World := { opens := 0, closeLog := [] }

/-- Bounds of the 64-bit Go runtime (`maxAlloc = 2^48` bytes): a slice of
8-byte pointers holds at most `2^45` elements, and a channel of 16-byte
interface values, whose header takes 96 bytes, at most `2^44 - 6`. -/
def Runtime.amd64 : Runtime :=
  { maxSliceCap := 35184372088832, maxChanCap := 17592186044410 }

/-- The handles wrapping the database objects `dbs 0`, ..., `dbs (k - 1)`, in
that order. -/
def handles (dbs : Nat → DB) (k : Nat) : List conn :=
  (List.range k).map (fun i => conn.mk (dbs i))

/-- State right after `NewConnectionPool` returned `pool`: nobody holds a
handle yet. -/
def Sys.init (pool : connPool) : Sys :=
  { pool := pool, held := [] }

/-- State right after `NewConnectionPool` returned `pool`: no caller is inside
`Get` or `Put`. -/
def Conc.init (pool : connPool) : Conc :=
  { pool := pool, getting := 0, putting := 0 }

/-- Invariant of call-level runs on a pool of `n` handles `H`: the channel is
open with capacity `n` and holds one permit per available handle, and the
available and held handles together are exactly `H`. -/
def SysInv (n : Nat) (H : List conn) (s : Sys) : Prop :=
  s.pool.channel = { buf := s.pool.connections.length, cap := n, closed := false } ∧
  s.pool.maxConnections = (n : Int) ∧
  (s.pool.connections ++ s.held).Perm H

/-- Invariant of statement-level interleavings: the channel is open and every
available handle is matched by a permit, by a caller about to remove a handle,
or by a caller about to add a permit. -/
def ConcInv (s : Conc) : Prop :=
  s.pool.channel.closed = false ∧
  s.pool.channel.buf + s.getting + s.putting = s.pool.connections.length

/-! ## Construction -/

theorem handles_succ (dbs : Nat → DB) (k : Nat) :
    handles dbs (k + 1) = conn.mk (dbs 0) :: handles (fun i => dbs (i + 1)) k := by
  simp [handles, List.range_succ_eq_map, List.map_map, Function.comp_def]

theorem handles_length (dbs : Nat → DB) (k : Nat) : (handles dbs k).length = k := by
  simp [handles]

theorem loop_ok (factory : Nat → Option DB) :
    ∀ (k : Nat) (dbs : Nat → DB) (pool : connPool) (w : World),
      (∀ i, i < k → factory (w.opens + i) = some (dbs i)) →
      pool.channel.closed = false →
      pool.channel.buf + k ≤ pool.channel.cap →
      NewConnectionPool.loop factory k pool w =
        .done { opens := w.opens + k, closeLog := w.closeLog }
          { connections := pool.connections ++ handles dbs k,
            maxConnections := pool.maxConnections,
            channel := { buf := pool.channel.buf + k, cap := pool.channel.cap, closed := false } } := by
  intro k
  induction k with
  | zero =>
    intro dbs pool w _ hc _
    obtain ⟨cs, m, ⟨b, cp, cl⟩⟩ := pool
    simp only at hc
    subst hc
    simp [NewConnectionPool.loop, handles]
  | succ k ih =>
    intro dbs pool w hok hc hcap
    have h0 : factory w.opens = some (dbs 0) := by simpa using hok 0 (Nat.succ_pos k)
    have hlt : pool.channel.buf < pool.channel.cap := by omega
    simp only [NewConnectionPool.loop, NewConn, h0, Chan.send, hc, hlt, if_true, Bool.false_eq_true,
      if_false]
    rw [ih (fun i => dbs (i + 1))]
    · simp [handles_succ, Nat.add_assoc, Nat.add_comm 1 k]
    · intro i hi
      have := hok (i + 1) (by omega)
      simpa [Nat.add_assoc, Nat.add_comm 1 i] using this
    · simp
    · simp only
      omega

theorem newConnectionPool_ok (rt : Runtime) (factory : Nat → Option DB) (n : Nat)
    (dbs : Nat → DB) (w : World)
    (hok : ∀ i, i < n → factory (w.opens + i) = some (dbs i))
    (hs : n ≤ rt.maxSliceCap) (hc : n ≤ rt.maxChanCap) :
    NewConnectionPool rt factory (n : Int) w =
      .done { opens := w.opens + n, closeLog := w.closeLog }
        ({ connections := handles dbs n, maxConnections := (n : Int),
           channel := { buf := n, cap := n, closed := false } }, error.nil) := by
  have h1 : ¬ ((n : Int) < 0 ∨ (rt.maxSliceCap : Int) < (n : Int)) := by omega
  have h2 : ¬ ((rt.maxChanCap : Int) < (n : Int)) := by omega
  simp only [NewConnectionPool, h1, h2, if_false, Int.toNat_ofNat]
  rw [loop_ok factory n dbs _ w hok] <;> simp [Chan.make]

theorem newConnectionPool_slice_panic (rt : Runtime) (factory : Nat → Option DB) (n : Nat)
    (w : World) (hs : rt.maxSliceCap < n) :
    NewConnectionPool rt factory (n : Int) w = .panicked .makesliceCapOutOfRange w := by
  have h1 : (n : Int) < 0 ∨ (rt.maxSliceCap : Int) < (n : Int) := by omega
  simp only [NewConnectionPool, h1, if_true]

theorem newConnectionPool_chan_panic (rt : Runtime) (factory : Nat → Option DB) (n : Nat)
    (w : World) (hs : n ≤ rt.maxSliceCap) (hc : rt.maxChanCap < n) :
    NewConnectionPool rt factory (n : Int) w = .panicked .makechanSizeOutOfRange w := by
  have h1 : ¬ ((n : Int) < 0 ∨ (rt.maxSliceCap : Int) < (n : Int)) := by omega
  have h2 : (rt.maxChanCap : Int) < (n : Int) := by omega
  simp only [NewConnectionPool, h1, h2, if_false, if_true]

theorem newConnectionPool_built (rt : Runtime) (factory : Nat → Option DB) (n : Nat)
    (dbs : Nat → DB) (w w1 : World) (pool : connPool) (e : error)
    (hok : ∀ i, i < n → factory (w.opens + i) = some (dbs i))
    (h : NewConnectionPool rt factory (n : Int) w = .done w1 (pool, e)) :
    n ≤ rt.maxSliceCap ∧ n ≤ rt.maxChanCap ∧
    pool = { connections := handles dbs n, maxConnections := (n : Int),
             channel := { buf := n, cap := n, closed := false } } ∧
    w1 = { opens := w.opens + n, closeLog := w.closeLog } ∧ e = error.nil := by
  by_cases hs : n ≤ rt.maxSliceCap
  · by_cases hc : n ≤ rt.maxChanCap
    · rw [newConnectionPool_ok rt factory n dbs w hok hs hc] at h
      injection h with hw hpair
      injection hpair with hp he
      exact ⟨hs, hc, hp.symm, hw.symm, he.symm⟩
    · rw [newConnectionPool_chan_panic rt factory n w hs (by omega)] at h
      cases h
  · rw [newConnectionPool_slice_panic rt factory n w (by omega)] at h
    cases h

theorem newConnectionPool_error_nil (rt : Runtime) (factory : Nat → Option DB) (m : Int)
    (w w1 : World) (p : connPool) (e : error)
    (h : NewConnectionPool rt factory m w = .done w1 (p, e)) :
    e = error.nil := by
  unfold NewConnectionPool at h
  split at h
  · cases h
  · split at h
    · cases h
    · simp only at h
      split at h <;> cases h
      rfl

theorem loop_fatal (factory : Nat → Option DB) :
    ∀ (j k : Nat) (pool : connPool) (w : World),
      j < k →
      (∀ i, i < j → factory (w.opens + i) ≠ none) →
      factory (w.opens + j) = none →
      pool.channel.closed = false →
      pool.channel.buf + k ≤ pool.channel.cap →
      NewConnectionPool.loop factory k pool w =
        .fatal { opens := w.opens + j + 1, closeLog := w.closeLog } := by
  intro j
  induction j with
  | zero =>
    intro k pool w hjk _ hnone _ _
    obtain ⟨k, rfl⟩ : ∃ k1, k = k1 + 1 := ⟨k - 1, by omega⟩
    have h0 : factory w.opens = none := by simpa using hnone
    simp [NewConnectionPool.loop, NewConn, h0]
  | succ j ih =>
    intro k pool w hjk hsome hnone hc hcap
    obtain ⟨k, rfl⟩ : ∃ k1, k = k1 + 1 := ⟨k - 1, by omega⟩
    have h0 : factory w.opens ≠ none := by simpa using hsome 0 (Nat.succ_pos j)
    obtain ⟨db, hdb⟩ := Option.ne_none_iff_exists'.mp h0
    have hlt : pool.channel.buf < pool.channel.cap := by omega
    simp only [NewConnectionPool.loop, NewConn, hdb, Chan.send, hc, hlt, if_true,
      Bool.false_eq_true, if_false]
    rw [ih k]
    · simp [Nat.add_assoc, Nat.add_comm 1 j]
    · omega
    · intro i hi
      have := hsome (i + 1) (by omega)
      simpa [Nat.add_assoc, Nat.add_comm 1 i] using this
    · simpa [Nat.add_assoc, Nat.add_comm 1 j] using hnone
    · simp
    · simp only
      omega

/-! ## Single operations -/

theorem get_ok (c : conn) (rest : List conn) (m : Int) (b cp : Nat) (cl : Bool) (hb : 0 < b) :
    Get { connections := c :: rest, maxConnections := m,
          channel := { buf := b, cap := cp, closed := cl } } =
      .done { connections := rest, maxConnections := m,
              channel := { buf := b - 1, cap := cp, closed := cl } } (c, error.nil) := by
  simp [Get, Get.recv, Chan.recv, hb, Get.locked]

theorem get_blocked (cs : List conn) (m : Int) (cp : Nat) :
    Get { connections := cs, maxConnections := m,
          channel := { buf := 0, cap := cp, closed := false } } =
      .blocked { connections := cs, maxConnections := m,
                 channel := { buf := 0, cap := cp, closed := false } } := by
  simp [Get, Get.recv, Chan.recv]

theorem get_error_nil (pool p : connPool) (c : conn) (e : error)
    (h : Get pool = .done p (c, e)) : e = error.nil := by
  unfold Get at h
  split at h
  · unfold Get.locked at h
    split at h <;> cases h
    rfl
  all_goals cases h

theorem put_ok (cs : List conn) (m : Int) (b cp : Nat) (c : conn) (hb : b < cp) :
    Put { connections := cs, maxConnections := m,
          channel := { buf := b, cap := cp, closed := false } } c =
      .done { connections := cs ++ [c], maxConnections := m,
              channel := { buf := b + 1, cap := cp, closed := false } } () := by
  simp [Put, Put.send, Put.locked, Chan.send, hb]

theorem put_closed (cs : List conn) (m : Int) (b cp : Nat) (c : conn) :
    Put { connections := cs, maxConnections := m,
          channel := { buf := b, cap := cp, closed := true } } c =
      .panicked .sendOnClosedChannel
        { connections := cs ++ [c], maxConnections := m,
          channel := { buf := b, cap := cp, closed := true } } := by
  simp [Put, Put.send, Put.locked, Chan.send]

theorem closeDb_foldl (cs : List conn) :
    ∀ w : World, cs.foldl World.closeDb w =
      { opens := w.opens, closeLog := w.closeLog ++ cs.map conn.db } := by
  induction cs with
  | nil => intro w; simp
  | cons c cs ih => intro w; simp [ih, World.closeDb]

theorem close_ok (cs : List conn) (m : Int) (b cp : Nat) (w : World) :
    Close { connections := cs, maxConnections := m,
            channel := { buf := b, cap := cp, closed := false } } w =
      .done ({ connections := cs, maxConnections := m,
               channel := { buf := b, cap := cp, closed := true } },
             { opens := w.opens, closeLog := w.closeLog ++ cs.map conn.db }) () := by
  simp [Close, Chan.close, closeDb_foldl]

theorem close_closed (cs : List conn) (m : Int) (b cp : Nat) (w : World) :
    Close { connections := cs, maxConnections := m,
            channel := { buf := b, cap := cp, closed := true } } w =
      .panicked .closeOfClosedChannel
        ({ connections := cs, maxConnections := m,
           channel := { buf := b, cap := cp, closed := true } }, w) := by
  simp [Close, Chan.close]

theorem getMany_ok :
    ∀ (k : Nat) (cs : List conn) (m : Int) (b cp : Nat) (cl : Bool),
      k ≤ b → k ≤ cs.length →
      getMany k { connections := cs, maxConnections := m,
                  channel := { buf := b, cap := cp, closed := cl } } =
        .done { connections := cs.drop k, maxConnections := m,
                channel := { buf := b - k, cap := cp, closed := cl } }
          ((cs.take k).map (fun c => (c, error.nil))) := by
  intro k
  induction k with
  | zero => intro cs m b cp cl _ _; simp [getMany]
  | succ k ih =>
    intro cs m b cp cl hb hl
    cases cs with
    | nil => simp at hl
    | cons c rest =>
      have hb0 : 0 < b := by omega
      simp only [List.length_cons] at hl
      rw [getMany, get_ok c rest m b cp cl hb0]
      simp only
      rw [ih rest m (b - 1) cp cl (by omega) (by omega)]
      simp [Nat.sub_sub, Nat.add_comm 1 k]

theorem getMany_exhausted :
    ∀ (cs : List conn) (m : Int) (cp : Nat),
      getMany (cs.length + 1)
          { connections := cs, maxConnections := m,
            channel := { buf := cs.length, cap := cp, closed := true } } =
        .panicked .indexOutOfRange
          { connections := [], maxConnections := m,
            channel := { buf := 0, cap := cp, closed := true } } := by
  intro cs
  induction cs with
  | nil =>
    intro m cp
    simp [getMany, Get, Get.recv, Chan.recv, Get.locked]
  | cons c rest ih =>
    intro m cp
    rw [getMany, List.length_cons, get_ok c rest m _ cp true (Nat.succ_pos _)]
    simp only [Nat.succ_eq_add_one, Nat.add_sub_cancel]
    rw [ih m cp]

/-! ## Call-level runs -/

theorem sysInv_init (n : Nat) (dbs : Nat → DB) :
    SysInv n (handles dbs n)
      (Sys.init { connections := handles dbs n, maxConnections := (n : Int),
                  channel := { buf := n, cap := n, closed := false } }) := by
  simp [SysInv, Sys.init, handles_length]

theorem sysInv_length (n : Nat) (H : List conn) (s : Sys) (hH : H.length = n)
    (h : SysInv n H s) : s.pool.connections.length + s.held.length = n := by
  have := h.2.2.length_eq
  simpa [hH] using this

theorem sysInv_step (n : Nat) (H : List conn) (hH : H.length = n) (s s1 : Sys) (a : Call)
    (h : SysInv n H s) (hs : s.step a = some s1) : SysInv n H s1 := by
  have hlen := sysInv_length n H s hH h
  obtain ⟨⟨cs, m, ch⟩, held⟩ := s
  obtain ⟨hch, hm, hperm⟩ := h
  simp only at hch hm hperm hlen
  subst hch hm
  cases a with
  | get =>
    cases cs with
    | nil => simp [Sys.step, get_blocked] at hs
    | cons c rest =>
      simp only [Sys.step, List.length_cons] at hs
      rw [get_ok c rest _ _ _ _ (Nat.succ_pos _)] at hs
      simp only [Option.some.injEq] at hs
      subst hs
      refine ⟨by simp, rfl, ?_⟩
      exact List.perm_middle.trans hperm
  | put c =>
    by_cases hc : c ∈ held
    · have hpos : 0 < held.length := List.length_pos_of_mem hc
      have hlt : cs.length < n := by omega
      simp only [Sys.step, hc, if_true] at hs
      rw [put_ok cs _ _ _ c hlt] at hs
      simp only [Option.some.injEq] at hs
      subst hs
      refine ⟨by simp, rfl, ?_⟩
      simp only [List.append_assoc, List.singleton_append]
      exact (List.Perm.append_left cs (List.perm_cons_erase hc).symm).trans hperm
    · simp [Sys.step, hc] at hs

theorem sysInv_run (n : Nat) (H : List conn) (hH : H.length = n) :
    ∀ (calls : List Call) (s s1 : Sys), SysInv n H s → s.run calls = some s1 → SysInv n H s1 := by
  intro calls
  induction calls with
  | nil =>
    intro s s1 h hs
    simp only [Sys.run, Option.some.injEq] at hs
    subst hs
    exact h
  | cons a rest ih =>
    intro s s1 h hs
    simp only [Sys.run] at hs
    cases hstep : s.step a with
    | none => simp [hstep] at hs
    | some s2 =>
      simp only [hstep] at hs
      exact ih s2 s1 (sysInv_step n H hH s s2 a h hstep) hs

theorem handles_nodup (n : Nat) (dbs : Nat → DB)
    (hinj : ∀ i j, i < n → j < n → dbs i = dbs j → i = j) : (handles dbs n).Nodup := by
  unfold handles
  refine List.Nodup.map_on ?_ (List.nodup_range n)
  intro i hi j hj hij
  simp only [List.mem_range] at hi hj
  exact hinj i j hi hj (by simpa using hij)

/-! ## Statement-level interleavings -/

theorem concInv_init (cs : List conn) (m : Int) (cp : Nat) :
    ConcInv (Conc.init { connections := cs, maxConnections := m,
                         channel := { buf := cs.length, cap := cp, closed := false } }) := by
  simp [ConcInv, Conc.init]

theorem concInv_step (s s1 : Conc) (a : Act) (u : Unit) (h : ConcInv s)
    (hs : s.step a = .done s1 u) : ConcInv s1 := by
  obtain ⟨⟨cs, m, ⟨b, cp, cl⟩⟩, g, p⟩ := s
  obtain ⟨hcl, hsum⟩ := h
  simp only at hcl hsum
  subst hcl
  cases a with
  | getRecv =>
    by_cases hb : 0 < b
    · simp only [Conc.step, Get.recv, Chan.recv, hb, if_true, Res.done.injEq, and_true] at hs
      subst hs
      simp only [ConcInv, true_and]
      omega
    · simp [Conc.step, Get.recv, Chan.recv, hb] at hs
  | getLocked =>
    by_cases hg : 0 < g
    · cases cs with
      | nil => simp [Conc.step, Get.locked, hg] at hs
      | cons c rest =>
        simp only [Conc.step, Get.locked, hg, if_true, Res.done.injEq, and_true] at hs
        subst hs
        simp only [ConcInv, true_and]
        simp only [List.length_cons] at hsum
        omega
    · simp [Conc.step, hg] at hs
  | putLocked c =>
    simp only [Conc.step, Put.locked, Res.done.injEq, and_true] at hs
    subst hs
    simp only [ConcInv, true_and, List.length_append, List.length_singleton]
    omega
  | putSend =>
    by_cases hp : 0 < p
    · by_cases hb : b < cp
      · simp only [Conc.step, Put.send, Chan.send, hp, hb, if_true, Bool.false_eq_true, if_false,
          Res.done.injEq, and_true] at hs
        subst hs
        simp only [ConcInv, true_and]
        omega
      · simp [Conc.step, Put.send, Chan.send, hp, hb] at hs
    · simp [Conc.step, hp] at hs
  | handoff =>
    by_cases hp : 0 < p ∧ b = 0
    · simp only [Conc.step, hp, and_self, if_true, Bool.false_eq_true, if_false, Res.done.injEq,
        and_true] at hs
      subst hs
      simp only [ConcInv, true_and]
      omega
    · simp [Conc.step, hp] at hs

theorem concInv_never_panics (s s2 : Conc) (a : Act) (k : PanicKind) (h : ConcInv s) :
    s.step a ≠ .panicked k s2 := by
  obtain ⟨⟨cs, m, ⟨b, cp, cl⟩⟩, g, p⟩ := s
  obtain ⟨hcl, hsum⟩ := h
  simp only at hcl hsum
  subst hcl
  cases a with
  | getRecv =>
    by_cases hb : 0 < b <;> simp [Conc.step, Get.recv, Chan.recv, hb]
  | getLocked =>
    by_cases hg : 0 < g
    · cases cs with
      | nil =>
        simp only [List.length_nil] at hsum
        omega
      | cons c rest => simp [Conc.step, Get.locked, hg]
    · simp [Conc.step, hg]
  | putLocked c => simp [Conc.step]
  | putSend =>
    by_cases hp : 0 < p <;> by_cases hb : b < cp <;> simp [Conc.step, Put.send, Chan.send, hp, hb]
  | handoff =>
    by_cases hp : 0 < p ∧ b = 0 <;> simp [Conc.step, hp]

theorem concInv_run :
    ∀ (acts : List Act) (s s1 : Conc), ConcInv s → s.run acts = some s1 → ConcInv s1 := by
  intro acts
  induction acts with
  | nil =>
    intro s s1 h hs
    simp only [Conc.run, Option.some.injEq] at hs
    subst hs
    exact h
  | cons a rest ih =>
    intro s s1 h hs
    simp only [Conc.run] at hs
    cases hstep : s.step a with
    | done s2 u =>
      simp only [hstep] at hs
      exact ih s2 s1 (concInv_step s s2 a u h hstep) hs
    | blocked s2 => simp [hstep] at hs
    | panicked k s2 => simp [hstep] at hs
    | fatal s2 => simp [hstep] at hs

/-! ## Verified claims -/

/-- C1: when the factory yields pairwise distinct handles, in every state
reached from the pool `NewConnectionPool(n)` returns by completed `Get` calls
and `Put` calls of currently held handles, no handle is both available and
held, no handle is held twice, and at most `n` handles are held.  The pool is
returned whenever `n` is within the capacity bounds of `make`.  (Also true for
`n = 0`.) -/
theorem C1_exclusive_ownership (rt : Runtime) (factory : Nat → Option DB) (n : Nat)
    (dbs : Nat → DB) (w : World)
    (hok : ∀ i, i < n → factory (w.opens + i) = some (dbs i))
    (hinj : ∀ i j, i < n → j < n → dbs i = dbs j → i = j) :
    (n ≤ rt.maxSliceCap → n ≤ rt.maxChanCap →
      ∃ pool w1, NewConnectionPool rt factory (n : Int) w = .done w1 (pool, error.nil)) ∧
    ∀ pool w1 e, NewConnectionPool rt factory (n : Int) w = .done w1 (pool, e) →
      ∀ calls s, (Sys.init pool).run calls = some s →
        (∀ c, c ∈ s.pool.connections → c ∉ s.held) ∧ s.held.Nodup ∧ s.held.length ≤ n := by
  refine ⟨fun hs hc => ⟨_, _, newConnectionPool_ok rt factory n dbs w hok hs hc⟩, ?_⟩
  intro pool w1 e hbuilt calls s hs
  obtain ⟨-, -, hpool, -, -⟩ := newConnectionPool_built rt factory n dbs w w1 pool e hok hbuilt
  subst hpool
  have hH := handles_length dbs n
  have hinv := sysInv_run n (handles dbs n) hH calls _ s (sysInv_init n dbs) hs
  have hlen := sysInv_length n _ s hH hinv
  have hnd : (s.pool.connections ++ s.held).Nodup :=
    hinv.2.2.nodup_iff.mpr (handles_nodup n dbs hinj)
  rw [List.nodup_append] at hnd
  refine ⟨fun c hc hh => hnd.2.2 hc hh, hnd.2.1, by omega⟩

/-- Witness for C1: two distinct handles from a fresh world; after `Get`,
`Get`, `Put(0)` handle 0 is available and handle 1 is held. -/
theorem C1_exclusive_ownership_witness :
    (∀ i, i < 2 → goodFactory (World.start.opens + i) = some (id i)) ∧
    (∀ i j, i < 2 → j < 2 → id i = id j → i = j) ∧
    (∃ pool w1, NewConnectionPool Runtime.amd64 goodFactory ((2 : Nat) : Int) World.start =
      .done w1 (pool, error.nil)) ∧
    NewConnectionPool Runtime.amd64 goodFactory ((2 : Nat) : Int) World.start =
      .done { opens := 2, closeLog := [] }
        ({ connections := [⟨0⟩, ⟨1⟩], maxConnections := 2,
           channel := { buf := 2, cap := 2, closed := false } }, error.nil) ∧
    (Sys.init { connections := [⟨0⟩, ⟨1⟩], maxConnections := 2,
                channel := { buf := 2, cap := 2, closed := false } }).run
        [.get, .get, .put ⟨0⟩] =
      some { pool := { connections := [⟨0⟩], maxConnections := 2,
                       channel := { buf := 1, cap := 2, closed := false } },
             held := [⟨1⟩] } ∧
    (∀ c, c ∈ [conn.mk 0] → c ∉ [conn.mk 1]) ∧ [conn.mk 1].Nodup ∧ [conn.mk 1].length ≤ 2 := by
  obtain ⟨hex, hall⟩ := C1_exclusive_ownership Runtime.amd64 goodFactory 2 id World.start
    (fun i _ => by simp [goodFactory, World.start]) (fun _ _ _ _ h => h)
  have hp : NewConnectionPool Runtime.amd64 goodFactory ((2 : Nat) : Int) World.start =
      .done { opens := 2, closeLog := [] }
        ({ connections := [⟨0⟩, ⟨1⟩], maxConnections := 2,
           channel := { buf := 2, cap := 2, closed := false } }, error.nil) := by decide
  exact ⟨fun i _ => by simp [goodFactory, World.start], fun _ _ _ _ h => h,
    hex (by decide) (by decide), hp, by decide,
    hall _ _ _ hp [.get, .get, .put ⟨0⟩]
      { pool := { connections := [⟨0⟩], maxConnections := 2,
                  channel := { buf := 1, cap := 2, closed := false } },
        held := [⟨1⟩] } (by decide)⟩

/-- C2: after every sequence of completed `Get` calls and `Put` calls of held
handles on the pool `NewConnectionPool(n)` returns, the number of available
handles plus the number of held handles is `n`, which is `maxConnections`, and
so the available list has at most `n` entries.  The pool is returned whenever
`n` is within the capacity bounds of `make`.  (Also true for `n = 0`.) -/
theorem C2_conservation (rt : Runtime) (factory : Nat → Option DB) (n : Nat) (dbs : Nat → DB)
    (w : World)
    (hok : ∀ i, i < n → factory (w.opens + i) = some (dbs i)) :
    (n ≤ rt.maxSliceCap → n ≤ rt.maxChanCap →
      ∃ pool w1, NewConnectionPool rt factory (n : Int) w = .done w1 (pool, error.nil)) ∧
    ∀ pool w1 e, NewConnectionPool rt factory (n : Int) w = .done w1 (pool, e) →
      ∀ calls s, (Sys.init pool).run calls = some s →
        s.pool.connections.length + s.held.length = n ∧
        s.pool.maxConnections = (n : Int) ∧
        0 ≤ s.pool.connections.length ∧ s.pool.connections.length ≤ n := by
  refine ⟨fun hs hc => ⟨_, _, newConnectionPool_ok rt factory n dbs w hok hs hc⟩, ?_⟩
  intro pool w1 e hbuilt calls s hs
  obtain ⟨-, -, hpool, -, -⟩ := newConnectionPool_built rt factory n dbs w w1 pool e hok hbuilt
  subst hpool
  have hH := handles_length dbs n
  have hinv := sysInv_run n (handles dbs n) hH calls _ s (sysInv_init n dbs) hs
  have hlen := sysInv_length n _ s hH hinv
  exact ⟨hlen, hinv.2.1, Nat.zero_le _, by omega⟩

/-- Witness for C2: a pool of three handles from a fresh world; after `Get`,
`Get`, `Put(1)` two handles are available and one is held. -/
theorem C2_conservation_witness :
    (∀ i, i < 3 → goodFactory (World.start.opens + i) = some (id i)) ∧
    (∃ pool w1, NewConnectionPool Runtime.amd64 goodFactory ((3 : Nat) : Int) World.start =
      .done w1 (pool, error.nil)) ∧
    NewConnectionPool Runtime.amd64 goodFactory ((3 : Nat) : Int) World.start =
      .done { opens := 3, closeLog := [] }
        ({ connections := [⟨0⟩, ⟨1⟩, ⟨2⟩], maxConnections := 3,
           channel := { buf := 3, cap := 3, closed := false } }, error.nil) ∧
    (Sys.init { connections := [⟨0⟩, ⟨1⟩, ⟨2⟩], maxConnections := 3,
                channel := { buf := 3, cap := 3, closed := false } }).run
        [.get, .get, .put ⟨1⟩] =
      some { pool := { connections := [⟨2⟩, ⟨1⟩], maxConnections := 3,
                       channel := { buf := 2, cap := 3, closed := false } },
             held := [⟨0⟩] } ∧
    [conn.mk 2, conn.mk 1].length + [conn.mk 0].length = 3 ∧
    (3 : Int) = ((3 : Nat) : Int) ∧
    0 ≤ [conn.mk 2, conn.mk 1].length ∧ [conn.mk 2, conn.mk 1].length ≤ 3 := by
  obtain ⟨hex, hall⟩ := C2_conservation Runtime.amd64 goodFactory 3 id World.start
    (fun i _ => by simp [goodFactory, World.start])
  have hp : NewConnectionPool Runtime.amd64 goodFactory ((3 : Nat) : Int) World.start =
      .done { opens := 3, closeLog := [] }
        ({ connections := [⟨0⟩, ⟨1⟩, ⟨2⟩], maxConnections := 3,
           channel := { buf := 3, cap := 3, closed := false } }, error.nil) := by decide
  exact ⟨fun i _ => by simp [goodFactory, World.start], hex (by decide) (by decide), hp,
    by decide,
    hall _ _ _ hp [.get, .get, .put ⟨1⟩]
      { pool := { connections := [⟨2⟩, ⟨1⟩], maxConnections := 3,
                  channel := { buf := 2, cap := 3, closed := false } },
        held := [⟨0⟩] } (by decide)⟩

/-- C3, as stated, fails: on the 64-bit runtime `NewConnectionPool(2^46)` does
not return a pool, although every open attempt would succeed; it panics in
`make` and makes no factory call. -/
theorem C3_counterexample :
    (0 : Int) < 70368744177664 ∧
    NewConnectionPool Runtime.amd64 goodFactory 70368744177664 World.start =
      .panicked .makesliceCapOutOfRange { opens := 0, closeLog := [] } ∧
    ¬ ∃ w1 p e,
      NewConnectionPool Runtime.amd64 goodFactory 70368744177664 World.start =
        .done w1 (p, e) := by
  have h : NewConnectionPool Runtime.amd64 goodFactory 70368744177664 World.start =
      .panicked .makesliceCapOutOfRange { opens := 0, closeLog := [] } := by
    simp [NewConnectionPool, Runtime.amd64, World.start]
  refine ⟨by decide, h, ?_⟩
  rintro ⟨w1, p, e, hd⟩
  rw [h] at hd
  cases hd

/-- C3, amended: for `n` within the capacity bounds of `make` for the slice and
for the channel, when the `n` open attempts succeed, `NewConnectionPool(n)`
calls the factory exactly `n` times, closes nothing, and returns a nil error
with a pool whose available list is the `n` created handles in creation order,
whose channel holds `n` permits with capacity `n`, and whose `maxConnections`
is `n`; then `n` consecutive `Get` calls all complete, none waits, and they
hand out the handles in creation order. -/
theorem C3_construction (rt : Runtime) (factory : Nat → Option DB) (n : Nat) (dbs : Nat → DB)
    (w : World)
    (hok : ∀ i, i < n → factory (w.opens + i) = some (dbs i))
    (hs : n ≤ rt.maxSliceCap) (hc : n ≤ rt.maxChanCap) :
    NewConnectionPool rt factory (n : Int) w =
        .done { opens := w.opens + n, closeLog := w.closeLog }
          ({ connections := handles dbs n, maxConnections := (n : Int),
             channel := { buf := n, cap := n, closed := false } }, error.nil) ∧
    (handles dbs n).length = n ∧
    (∀ i, i < n → (handles dbs n)[i]? = some (conn.mk (dbs i))) ∧
    getMany n { connections := handles dbs n, maxConnections := (n : Int),
                channel := { buf := n, cap := n, closed := false } } =
        .done { connections := [], maxConnections := (n : Int),
                channel := { buf := 0, cap := n, closed := false } }
          ((handles dbs n).map (fun c => (c, error.nil))) := by
  refine ⟨newConnectionPool_ok rt factory n dbs w hok hs hc, handles_length dbs n, ?_, ?_⟩
  · intro i hi
    simp [handles, List.getElem?_map, List.getElem?_range hi]
  · rw [getMany_ok n _ _ _ _ _ (Nat.le_refl n) (by simp [handles_length])]
    have h1 : (handles dbs n).drop n = [] := by
      apply List.drop_eq_nil_of_le
      simp [handles_length]
    have h2 : (handles dbs n).take n = handles dbs n := by
      apply List.take_of_length_le
      simp [handles_length]
    simp [h1, h2]

/-- Witness for C3 (amended): five handles from a fresh world on the 64-bit
runtime. -/
theorem C3_construction_witness :
    (∀ i, i < 5 → goodFactory (World.start.opens + i) = some (id i)) ∧
    5 ≤ Runtime.amd64.maxSliceCap ∧ 5 ≤ Runtime.amd64.maxChanCap ∧
    NewConnectionPool Runtime.amd64 goodFactory ((5 : Nat) : Int) World.start =
        .done { opens := World.start.opens + 5, closeLog := World.start.closeLog }
          ({ connections := handles id 5, maxConnections := ((5 : Nat) : Int),
             channel := { buf := 5, cap := 5, closed := false } }, error.nil) ∧
    (handles id 5).length = 5 ∧
    (∀ i, i < 5 → (handles id 5)[i]? = some (conn.mk (id i))) ∧
    getMany 5 { connections := handles id 5, maxConnections := ((5 : Nat) : Int),
                channel := { buf := 5, cap := 5, closed := false } } =
        .done { connections := [], maxConnections := ((5 : Nat) : Int),
                channel := { buf := 0, cap := 5, closed := false } }
          ((handles id 5).map (fun c => (c, error.nil))) :=
  ⟨fun i _ => by simp [goodFactory, World.start], by decide, by decide,
   C3_construction Runtime.amd64 goodFactory 5 id World.start
    (fun i _ => by simp [goodFactory, World.start]) (by decide) (by decide)⟩

/-- C4, as stated, fails: on the pool built by `NewConnectionPool(5)` and then
closed, the next `Get` completes with the first handle and a nil error, and it
cannot return a non-nil error. -/
theorem C4_counterexample :
    NewConnectionPool Runtime.amd64 goodFactory 5 World.start =
      .done { opens := 5, closeLog := [] }
        ({ connections := [⟨0⟩, ⟨1⟩, ⟨2⟩, ⟨3⟩, ⟨4⟩], maxConnections := 5,
           channel := { buf := 5, cap := 5, closed := false } }, error.nil) ∧
    Close { connections := [⟨0⟩, ⟨1⟩, ⟨2⟩, ⟨3⟩, ⟨4⟩], maxConnections := 5,
            channel := { buf := 5, cap := 5, closed := false } }
          { opens := 5, closeLog := [] } =
      .done ({ connections := [⟨0⟩, ⟨1⟩, ⟨2⟩, ⟨3⟩, ⟨4⟩], maxConnections := 5,
               channel := { buf := 5, cap := 5, closed := true } },
             { opens := 5, closeLog := [0, 1, 2, 3, 4] }) () ∧
    Get { connections := [⟨0⟩, ⟨1⟩, ⟨2⟩, ⟨3⟩, ⟨4⟩], maxConnections := 5,
          channel := { buf := 5, cap := 5, closed := true } } =
      .done { connections := [⟨1⟩, ⟨2⟩, ⟨3⟩, ⟨4⟩], maxConnections := 5,
              channel := { buf := 4, cap := 5, closed := true } } (⟨0⟩, error.nil) ∧
    ¬ ∃ p c code,
      Get { connections := [⟨0⟩, ⟨1⟩, ⟨2⟩, ⟨3⟩, ⟨4⟩], maxConnections := 5,
            channel := { buf := 5, cap := 5, closed := true } } =
        .done p (c, error.nonNil code) := by
  refine ⟨by decide, by decide, by decide, ?_⟩
  rintro ⟨p, c, code, h⟩
  have := get_error_nil _ _ _ _ h
  cases this

/-- C4, amended: take any state that the pool returned by `NewConnectionPool(n)`
reaches by completed `Get` calls and `Put` calls of held handles.  `Close`
completes there: it marks the channel closed and calls `db.Close()` on exactly
the handles then available, in list order, and leaves them in the list.  After
that, `Get` neither waits nor returns an error: as many `Get` calls as there
were available handles each complete with a nil error and the next handle of
the list, in list order, every one of them already closed; the `Get` after
those panics with index out of range.  In no state at all does `Get` return a
non-nil error.  The pool is returned whenever `n` is within the capacity
bounds of `make`. -/
theorem C4_get_after_close (rt : Runtime) (factory : Nat → Option DB) (n : Nat)
    (dbs : Nat → DB) (w : World)
    (hok : ∀ i, i < n → factory (w.opens + i) = some (dbs i)) :
    (n ≤ rt.maxSliceCap → n ≤ rt.maxChanCap →
      ∃ pool w1, NewConnectionPool rt factory (n : Int) w = .done w1 (pool, error.nil)) ∧
    (∀ pool w1 e, NewConnectionPool rt factory (n : Int) w = .done w1 (pool, e) →
      ∀ calls s, (Sys.init pool).run calls = some s →
        Close s.pool w1 =
          .done ({ connections := s.pool.connections, maxConnections := (n : Int),
                   channel := { buf := s.pool.connections.length, cap := n, closed := true } },
                 { opens := w1.opens,
                   closeLog := w1.closeLog ++ s.pool.connections.map conn.db }) () ∧
        (∀ c, c ∈ s.pool.connections →
          c.db ∈ w1.closeLog ++ s.pool.connections.map conn.db) ∧
        (∀ k, k ≤ s.pool.connections.length →
          getMany k { connections := s.pool.connections, maxConnections := (n : Int),
                      channel := { buf := s.pool.connections.length, cap := n,
                                   closed := true } } =
            .done { connections := s.pool.connections.drop k, maxConnections := (n : Int),
                    channel := { buf := s.pool.connections.length - k, cap := n,
                                 closed := true } }
              ((s.pool.connections.take k).map (fun c => (c, error.nil)))) ∧
        getMany (s.pool.connections.length + 1)
            { connections := s.pool.connections, maxConnections := (n : Int),
              channel := { buf := s.pool.connections.length, cap := n, closed := true } } =
          .panicked .indexOutOfRange
            { connections := [], maxConnections := (n : Int),
              channel := { buf := 0, cap := n, closed := true } }) ∧
    ∀ q q2 c e, Get q = .done q2 (c, e) → e = error.nil := by
  refine ⟨fun hs hc => ⟨_, _, newConnectionPool_ok rt factory n dbs w hok hs hc⟩, ?_,
    fun q q2 c e h => get_error_nil q q2 c e h⟩
  intro pool w1 e hbuilt calls s hs
  obtain ⟨-, -, hpool, -, -⟩ := newConnectionPool_built rt factory n dbs w w1 pool e hok hbuilt
  subst hpool
  have hH := handles_length dbs n
  have hinv := sysInv_run n (handles dbs n) hH calls _ s (sysInv_init n dbs) hs
  obtain ⟨⟨cs, m, ch⟩, held⟩ := s
  obtain ⟨hch, hm, -⟩ := hinv
  simp only at hch hm
  subst hch hm
  refine ⟨close_ok cs _ _ _ w1, ?_, ?_, getMany_exhausted cs _ _⟩
  · intro c hc
    simp only [List.mem_append, List.mem_map]
    exact Or.inr ⟨c, hc, rfl⟩
  · intro k hk
    exact getMany_ok k cs _ _ _ _ hk hk

/-- Witness for C4 (amended): a pool of two handles from a fresh world; handle
0 is taken before `Close`, so `Close` closes handle 1 only, the next `Get`
returns handle 1 with a nil error and the one after it panics. -/
theorem C4_get_after_close_witness :
    (∀ i, i < 2 → goodFactory (World.start.opens + i) = some (id i)) ∧
    (∃ pool w1, NewConnectionPool Runtime.amd64 goodFactory ((2 : Nat) : Int) World.start =
      .done w1 (pool, error.nil)) ∧
    NewConnectionPool Runtime.amd64 goodFactory ((2 : Nat) : Int) World.start =
      .done { opens := 2, closeLog := [] }
        ({ connections := [⟨0⟩, ⟨1⟩], maxConnections := 2,
           channel := { buf := 2, cap := 2, closed := false } }, error.nil) ∧
    (Sys.init { connections := [⟨0⟩, ⟨1⟩], maxConnections := 2,
                channel := { buf := 2, cap := 2, closed := false } }).run [.get] =
      some { pool := { connections := [⟨1⟩], maxConnections := 2,
                       channel := { buf := 1, cap := 2, closed := false } },
             held := [⟨0⟩] } ∧
    Close { connections := [⟨1⟩], maxConnections := 2,
            channel := { buf := 1, cap := 2, closed := false } }
          { opens := 2, closeLog := [] } =
      .done ({ connections := [⟨1⟩], maxConnections := 2,
               channel := { buf := 1, cap := 2, closed := true } },
             { opens := 2, closeLog := [1] }) () ∧
    getMany 1 { connections := [⟨1⟩], maxConnections := 2,
                channel := { buf := 1, cap := 2, closed := true } } =
      .done { connections := [], maxConnections := 2,
              channel := { buf := 0, cap := 2, closed := true } } [(⟨1⟩, error.nil)] ∧
    getMany 2 { connections := [⟨1⟩], maxConnections := 2,
                channel := { buf := 1, cap := 2, closed := true } } =
      .panicked .indexOutOfRange
        { connections := [], maxConnections := 2,
          channel := { buf := 0, cap := 2, closed := true } } := by
  obtain ⟨hex, hall, -⟩ := C4_get_after_close Runtime.amd64 goodFactory 2 id World.start
    (fun i _ => by simp [goodFactory, World.start])
  have hp : NewConnectionPool Runtime.amd64 goodFactory ((2 : Nat) : Int) World.start =
      .done { opens := 2, closeLog := [] }
        ({ connections := [⟨0⟩, ⟨1⟩], maxConnections := 2,
           channel := { buf := 2, cap := 2, closed := false } }, error.nil) := by decide
  obtain ⟨hclose, -, hget, hpanic⟩ := hall _ _ _ hp [.get]
    { pool := { connections := [⟨1⟩], maxConnections := 2,
                channel := { buf := 1, cap := 2, closed := false } },
      held := [⟨0⟩] } (by decide)
  exact ⟨fun i _ => by simp [goodFactory, World.start], hex (by decide) (by decide), hp,
    by decide, hclose, hget 1 (by decide), hpanic⟩

/-- C5: in every state reached from the pool `NewConnectionPool(n)` returns by
completed `Get` calls and `Put` calls of held handles, the channel is open and
`Put` of any currently held handle completes without waiting; afterwards the
available list is the previous list with that handle appended, the channel
holds one more permit, and `maxConnections`, the capacity and the open flag
are unchanged.  The pool is returned whenever `n` is within the capacity
bounds of `make`. -/
theorem C5_put_appends (rt : Runtime) (factory : Nat → Option DB) (n : Nat) (dbs : Nat → DB)
    (w : World)
    (hok : ∀ i, i < n → factory (w.opens + i) = some (dbs i)) :
    (n ≤ rt.maxSliceCap → n ≤ rt.maxChanCap →
      ∃ pool w1, NewConnectionPool rt factory (n : Int) w = .done w1 (pool, error.nil)) ∧
    ∀ pool w1 e, NewConnectionPool rt factory (n : Int) w = .done w1 (pool, e) →
      ∀ calls s c, (Sys.init pool).run calls = some s → c ∈ s.held →
        s.pool.channel.closed = false ∧
        Put s.pool c =
          .done { connections := s.pool.connections ++ [c],
                  maxConnections := s.pool.maxConnections,
                  channel := { buf := s.pool.channel.buf + 1, cap := s.pool.channel.cap,
                               closed := s.pool.channel.closed } } () := by
  refine ⟨fun hs hc => ⟨_, _, newConnectionPool_ok rt factory n dbs w hok hs hc⟩, ?_⟩
  intro pool w1 e hbuilt calls s c hs hc
  obtain ⟨-, -, hpool, -, -⟩ := newConnectionPool_built rt factory n dbs w w1 pool e hok hbuilt
  subst hpool
  have hH := handles_length dbs n
  have hinv := sysInv_run n (handles dbs n) hH calls _ s (sysInv_init n dbs) hs
  have hlen := sysInv_length n _ s hH hinv
  have hpos : 0 < s.held.length := List.length_pos_of_mem hc
  obtain ⟨⟨cs, m, ch⟩, held⟩ := s
  obtain ⟨hch, -, -⟩ := hinv
  simp only at hch hlen hpos
  subst hch
  exact ⟨rfl, put_ok cs m _ _ c (by omega)⟩

/-- Witness for C5: a pool of two handles from a fresh world; after one `Get`
handle 0 is held and `Put(0)` appends it behind handle 1. -/
theorem C5_put_appends_witness :
    (∀ i, i < 2 → goodFactory (World.start.opens + i) = some (id i)) ∧
    (∃ pool w1, NewConnectionPool Runtime.amd64 goodFactory ((2 : Nat) : Int) World.start =
      .done w1 (pool, error.nil)) ∧
    NewConnectionPool Runtime.amd64 goodFactory ((2 : Nat) : Int) World.start =
      .done { opens := 2, closeLog := [] }
        ({ connections := [⟨0⟩, ⟨1⟩], maxConnections := 2,
           channel := { buf := 2, cap := 2, closed := false } }, error.nil) ∧
    (Sys.init { connections := [⟨0⟩, ⟨1⟩], maxConnections := 2,
                channel := { buf := 2, cap := 2, closed := false } }).run [.get] =
      some { pool := { connections := [⟨1⟩], maxConnections := 2,
                       channel := { buf := 1, cap := 2, closed := false } },
             held := [⟨0⟩] } ∧
    conn.mk 0 ∈ [conn.mk 0] ∧
    false = false ∧
    Put { connections := [⟨1⟩], maxConnections := 2,
          channel := { buf := 1, cap := 2, closed := false } } ⟨0⟩ =
      .done { connections := [⟨1⟩] ++ [⟨0⟩], maxConnections := 2,
              channel := { buf := 1 + 1, cap := 2, closed := false } } () := by
  obtain ⟨hex, hall⟩ := C5_put_appends Runtime.amd64 goodFactory 2 id World.start
    (fun i _ => by simp [goodFactory, World.start])
  have hp : NewConnectionPool Runtime.amd64 goodFactory ((2 : Nat) : Int) World.start =
      .done { opens := 2, closeLog := [] }
        ({ connections := [⟨0⟩, ⟨1⟩], maxConnections := 2,
           channel := { buf := 2, cap := 2, closed := false } }, error.nil) := by decide
  exact ⟨fun i _ => by simp [goodFactory, World.start], hex (by decide) (by decide), hp,
    by decide, by decide,
    hall _ _ _ hp [.get]
      { pool := { connections := [⟨1⟩], maxConnections := 2,
                  channel := { buf := 1, cap := 2, closed := false } },
        held := [⟨0⟩] } ⟨0⟩ (by decide) (by decide)⟩

/-- C6: on an open pool with at least one permit and a non-empty available
list, `Get` returns a nil error and the first available handle, leaves the rest
of the list in order and takes exactly one permit; on an open pool with zero
permits `Get` cannot complete.  For `NewConnectionPool(1)` with handle `h1`:
`Get` returns `h1`, a second `Get` cannot complete while `h1` is held, and after
`Put(h1)` that `Get` returns `h1` with a nil error (on any runtime whose `make`
accepts capacity 1). -/
theorem C6_get_takes_first :
    (∀ (pool : connPool) (c : conn) (rest : List conn),
      pool.channel.closed = false → 0 < pool.channel.buf → pool.connections = c :: rest →
      Get pool =
        .done { connections := rest, maxConnections := pool.maxConnections,
                channel := { buf := pool.channel.buf - 1, cap := pool.channel.cap,
                             closed := false } } (c, error.nil)) ∧
    (∀ pool : connPool, pool.channel.closed = false → pool.channel.buf = 0 →
      Get pool = .blocked pool) ∧
    (∀ (rt : Runtime) (factory : Nat → Option DB) (w : World) (h1 : DB),
      1 ≤ rt.maxSliceCap → 1 ≤ rt.maxChanCap → factory w.opens = some h1 →
      ∃ w1 p0 p1 p2 p3,
        NewConnectionPool rt factory 1 w = .done w1 (p0, error.nil) ∧
        Get p0 = .done p1 (conn.mk h1, error.nil) ∧
        Get p1 = .blocked p1 ∧
        Put p1 (conn.mk h1) = .done p2 () ∧
        Get p2 = .done p3 (conn.mk h1, error.nil)) := by
  refine ⟨?_, ?_, ?_⟩
  · intro pool c rest hcl hb hcs
    obtain ⟨cs, m, ⟨b, cp, cl⟩⟩ := pool
    simp only at hcl hb hcs
    subst hcl hcs
    exact get_ok c rest m b cp false hb
  · intro pool hcl hb
    obtain ⟨cs, m, ⟨b, cp, cl⟩⟩ := pool
    simp only at hcl hb
    subst hcl hb
    exact get_blocked cs m cp
  · intro rt factory w h1 hs hc hf
    have hnew := newConnectionPool_ok rt factory 1 (fun _ => h1) w
      (fun i hi => by
        have : i = 0 := by omega
        subst this
        simpa using hf) hs hc
    have hh : handles (fun _ => h1) 1 = [conn.mk h1] := by simp [handles]
    simp only [Nat.cast_one, hh] at hnew
    refine ⟨_, _,
      { connections := [], maxConnections := 1, channel := { buf := 0, cap := 1, closed := false } },
      { connections := [conn.mk h1], maxConnections := 1,
        channel := { buf := 1, cap := 1, closed := false } },
      { connections := [], maxConnections := 1, channel := { buf := 0, cap := 1, closed := false } },
      hnew, ?_, ?_, ?_, ?_⟩
    · exact get_ok _ _ _ _ _ _ Nat.one_pos
    · exact get_blocked _ _ _
    · exact put_ok _ _ _ _ _ Nat.one_pos
    · exact get_ok _ _ _ _ _ _ Nat.one_pos

/-- Witness for C6: a two-handle pool with one permit, and the one-handle
scenario from a fresh world. -/
theorem C6_get_takes_first_witness :
    Get { connections := [⟨7⟩, ⟨8⟩], maxConnections := 2,
          channel := { buf := 1, cap := 2, closed := false } } =
      .done { connections := [⟨8⟩], maxConnections := 2,
              channel := { buf := 1 - 1, cap := 2, closed := false } } (⟨7⟩, error.nil) ∧
    Get { connections := [⟨8⟩], maxConnections := 2,
          channel := { buf := 0, cap := 2, closed := false } } =
      .blocked { connections := [⟨8⟩], maxConnections := 2,
                 channel := { buf := 0, cap := 2, closed := false } } ∧
    ∃ w1 p0 p1 p2 p3,
      NewConnectionPool Runtime.amd64 goodFactory 1 World.start = .done w1 (p0, error.nil) ∧
      Get p0 = .done p1 (conn.mk 0, error.nil) ∧
      Get p1 = .blocked p1 ∧
      Put p1 (conn.mk 0) = .done p2 () ∧
      Get p2 = .done p3 (conn.mk 0, error.nil) :=
  ⟨C6_get_takes_first.1
      { connections := [⟨7⟩, ⟨8⟩], maxConnections := 2,
        channel := { buf := 1, cap := 2, closed := false } } ⟨7⟩ [⟨8⟩] rfl (by decide) rfl,
   C6_get_takes_first.2.1
      { connections := [⟨8⟩], maxConnections := 2,
        channel := { buf := 0, cap := 2, closed := false } } rfl rfl,
   C6_get_takes_first.2.2 Runtime.amd64 goodFactory World.start 0 (by decide) (by decide) rfl⟩

/-- C7, as stated, fails: on the pool built by `NewConnectionPool(1)` the first
`Close` completes and the second `Close` panics. -/
theorem C7_counterexample :
    NewConnectionPool Runtime.amd64 goodFactory 1 World.start =
      .done { opens := 1, closeLog := [] }
        ({ connections := [⟨0⟩], maxConnections := 1,
           channel := { buf := 1, cap := 1, closed := false } }, error.nil) ∧
    Close { connections := [⟨0⟩], maxConnections := 1,
            channel := { buf := 1, cap := 1, closed := false } }
          { opens := 1, closeLog := [] } =
      .done ({ connections := [⟨0⟩], maxConnections := 1,
               channel := { buf := 1, cap := 1, closed := true } },
             { opens := 1, closeLog := [0] }) () ∧
    Close { connections := [⟨0⟩], maxConnections := 1,
            channel := { buf := 1, cap := 1, closed := true } }
          { opens := 1, closeLog := [0] } =
      .panicked .closeOfClosedChannel
        ({ connections := [⟨0⟩], maxConnections := 1,
           channel := { buf := 1, cap := 1, closed := true } },
         { opens := 1, closeLog := [0] }) := by
  decide

/-- C7, amended: on a pool whose channel is open, `Close` completes, marks the
channel closed and calls `db.Close()` once on each available handle, in order;
a second `Close` does not succeed: it panics at `close(pool.channel)` before
touching any handle, so the pool and the log of closed handles stay exactly as
the first `Close` left them. -/
theorem C7_close_twice (pool : connPool) (w : World) (hopen : pool.channel.closed = false) :
    ∃ pool1 w1,
      Close pool w = .done (pool1, w1) () ∧
      pool1 = { pool with channel := { pool.channel with closed := true } } ∧
      w1 = { w with closeLog := w.closeLog ++ pool.connections.map conn.db } ∧
      Close pool1 w1 = .panicked .closeOfClosedChannel (pool1, w1) := by
  obtain ⟨cs, m, ⟨b, cp, cl⟩⟩ := pool
  simp only at hopen
  subst hopen
  exact ⟨_, _, close_ok cs m b cp w, rfl, rfl, close_closed cs m b cp _⟩

/-- Witness for C7 (amended): an open pool holding one handle. -/
theorem C7_close_twice_witness :
    ∃ pool1 w1,
      Close { connections := [⟨0⟩], maxConnections := 1,
              channel := { buf := 1, cap := 1, closed := false } } World.start
        = .done (pool1, w1) () ∧
      pool1 = { connections := [⟨0⟩], maxConnections := 1,
                channel := { buf := 1, cap := 1, closed := true } } ∧
      w1 = { opens := 0, closeLog := [0] } ∧
      Close pool1 w1 = .panicked .closeOfClosedChannel (pool1, w1) :=
  C7_close_twice
    { connections := [⟨0⟩], maxConnections := 1,
      channel := { buf := 1, cap := 1, closed := false } } World.start rfl

/-- C8, as stated, fails: build a pool of two handles, take the first, close
the pool, then return the held handle.  `Close` closed only the available
handle, the `Put` panics, and the returned handle was never closed. -/
theorem C8_counterexample :
    NewConnectionPool Runtime.amd64 goodFactory 2 World.start =
      .done { opens := 2, closeLog := [] }
        ({ connections := [⟨0⟩, ⟨1⟩], maxConnections := 2,
           channel := { buf := 2, cap := 2, closed := false } }, error.nil) ∧
    Get { connections := [⟨0⟩, ⟨1⟩], maxConnections := 2,
          channel := { buf := 2, cap := 2, closed := false } } =
      .done { connections := [⟨1⟩], maxConnections := 2,
              channel := { buf := 1, cap := 2, closed := false } } (⟨0⟩, error.nil) ∧
    Close { connections := [⟨1⟩], maxConnections := 2,
            channel := { buf := 1, cap := 2, closed := false } }
          { opens := 2, closeLog := [] } =
      .done ({ connections := [⟨1⟩], maxConnections := 2,
               channel := { buf := 1, cap := 2, closed := true } },
             { opens := 2, closeLog := [1] }) () ∧
    Put { connections := [⟨1⟩], maxConnections := 2,
          channel := { buf := 1, cap := 2, closed := true } } ⟨0⟩ =
      .panicked .sendOnClosedChannel
        { connections := [⟨1⟩, ⟨0⟩], maxConnections := 2,
          channel := { buf := 1, cap := 2, closed := true } } ∧
    (conn.mk 0).db ∉ [1] := by
  decide

/-- C8, amended: on an open pool, `Close` completes and closes exactly the
handles that are available at that moment, in order.  A handle held by a caller
at that moment is not closed by `Close`, and returning it afterwards with `Put`
does not complete: `Put` appends it to the available list and then panics on
the send on the closed channel, without closing anything. -/
theorem C8_close_then_put (pool : connPool) (w : World) (c : conn)
    (hopen : pool.channel.closed = false)
    (hheld : c.db ∉ pool.connections.map conn.db)
    (hcopen : c.db ∉ w.closeLog) :
    ∃ pool1 w1,
      Close pool w = .done (pool1, w1) () ∧
      w1.closeLog = w.closeLog ++ pool.connections.map conn.db ∧
      (∀ a, a ∈ pool.connections → a.db ∈ w1.closeLog) ∧
      c.db ∉ w1.closeLog ∧
      Put pool1 c = .panicked .sendOnClosedChannel (Put.locked pool1 c) := by
  obtain ⟨cs, m, ⟨b, cp, cl⟩⟩ := pool
  simp only at hopen hheld
  subst hopen
  refine ⟨_, _, close_ok cs m b cp w, rfl, ?_, ?_, put_closed cs m b cp c⟩
  · intro a ha
    simp only [List.mem_append, List.mem_map]
    exact Or.inr ⟨a, ha, rfl⟩
  · simp only [List.mem_append, not_or]
    exact ⟨hcopen, hheld⟩

/-- Witness for C8 (amended): handle 1 is available, handle 0 is held. -/
theorem C8_close_then_put_witness :
    ∃ pool1 w1,
      Close { connections := [⟨1⟩], maxConnections := 2,
              channel := { buf := 1, cap := 2, closed := false } }
            { opens := 2, closeLog := [] } = .done (pool1, w1) () ∧
      w1.closeLog = [] ++ [conn.mk 1].map conn.db ∧
      (∀ a, a ∈ [conn.mk 1] → a.db ∈ w1.closeLog) ∧
      (conn.mk 0).db ∉ w1.closeLog ∧
      Put pool1 ⟨0⟩ = .panicked .sendOnClosedChannel (Put.locked pool1 ⟨0⟩) :=
  C8_close_then_put
    { connections := [⟨1⟩], maxConnections := 2,
      channel := { buf := 1, cap := 2, closed := false } }
    { opens := 2, closeLog := [] } ⟨0⟩ rfl (by decide) (by decide)

/-- C9, as stated, fails: with a factory whose second open attempt fails,
`NewConnectionPool(2)` returns nothing at all, the process exits inside
`NewConn`, and the first handle, already opened, has not been closed. -/
theorem C9_counterexample :
    secondFails 0 = some 0 ∧ secondFails 1 = none ∧
    NewConnectionPool Runtime.amd64 secondFails 2 World.start =
      .fatal { opens := 2, closeLog := [] } ∧
    ¬ ∃ w1 p code,
      NewConnectionPool Runtime.amd64 secondFails 2 World.start =
        .done w1 (p, error.nonNil code) := by
  refine ⟨by decide, by decide, by decide, ?_⟩
  rintro ⟨w1, p, code, h⟩
  have := newConnectionPool_error_nil _ _ _ _ _ _ _ h
  cases this

/-- C9, amended: when at least one of the `n` open attempts fails,
`NewConnectionPool(n)` does not return.  For `n` within the capacity bounds of
`make`, `NewConn` ends the process through `log.Fatal` at the first failing
attempt, after exactly that many factory calls and without closing any handle
opened before.  For `n` above the slice bound, or within it and above the
channel bound, `make` panics before any factory call.  Whenever
`NewConnectionPool` does return, its error is nil. -/
theorem C9_factory_failure (rt : Runtime) (factory : Nat → Option DB) (n : Nat) (w : World)
    (hfail : ∃ i, i < n ∧ factory (w.opens + i) = none) :
    (n ≤ rt.maxSliceCap → n ≤ rt.maxChanCap →
      ∃ j, j < n ∧ (∀ i, i < j → factory (w.opens + i) ≠ none) ∧
        factory (w.opens + j) = none ∧
        NewConnectionPool rt factory (n : Int) w =
          .fatal { opens := w.opens + j + 1, closeLog := w.closeLog }) ∧
    (rt.maxSliceCap < n →
      NewConnectionPool rt factory (n : Int) w = .panicked .makesliceCapOutOfRange w) ∧
    (n ≤ rt.maxSliceCap → rt.maxChanCap < n →
      NewConnectionPool rt factory (n : Int) w = .panicked .makechanSizeOutOfRange w) ∧
    (∀ w1 p e, NewConnectionPool rt factory (n : Int) w ≠ .done w1 (p, e)) ∧
    ∀ (m : Int) (w0 w1 : World) (p : connPool) (e : error),
      NewConnectionPool rt factory m w0 = .done w1 (p, e) → e = error.nil := by
  classical
  have hj := Nat.find_spec hfail
  have hmin : ∀ i, i < Nat.find hfail → factory (w.opens + i) ≠ none := by
    intro i hi hnone
    exact Nat.find_min hfail hi ⟨by omega, hnone⟩
  have hfatal : n ≤ rt.maxSliceCap → n ≤ rt.maxChanCap →
      NewConnectionPool rt factory (n : Int) w =
        .fatal { opens := w.opens + Nat.find hfail + 1, closeLog := w.closeLog } := by
    intro hs hc
    have h1 : ¬ ((n : Int) < 0 ∨ (rt.maxSliceCap : Int) < (n : Int)) := by omega
    have h2 : ¬ ((rt.maxChanCap : Int) < (n : Int)) := by omega
    simp only [NewConnectionPool, h1, h2, if_false, Int.toNat_ofNat]
    rw [loop_fatal factory (Nat.find hfail) n _ w hj.1 hmin hj.2] <;> simp [Chan.make]
  refine ⟨fun hs hc => ⟨Nat.find hfail, hj.1, hmin, hj.2, hfatal hs hc⟩,
    fun hs => newConnectionPool_slice_panic rt factory n w hs,
    fun hs hc => newConnectionPool_chan_panic rt factory n w hs hc, ?_,
    fun m w0 w1 p e h => newConnectionPool_error_nil rt factory m w0 w1 p e h⟩
  intro w1 p e hd
  by_cases hs : n ≤ rt.maxSliceCap
  · by_cases hc : n ≤ rt.maxChanCap
    · rw [hfatal hs hc] at hd
      cases hd
    · rw [newConnectionPool_chan_panic rt factory n w hs (by omega)] at hd
      cases hd
  · rw [newConnectionPool_slice_panic rt factory n w (by omega)] at hd
    cases hd

/-- Witness for C9 (amended): on the 64-bit runtime the second of two open
attempts fails; and with `2^62` requested handles `make` panics first. -/
theorem C9_factory_failure_witness :
    (∃ i, i < 2 ∧ secondFails (World.start.opens + i) = none) ∧
    (∃ j, j < 2 ∧ (∀ i, i < j → secondFails (World.start.opens + i) ≠ none) ∧
      secondFails (World.start.opens + j) = none ∧
      NewConnectionPool Runtime.amd64 secondFails ((2 : Nat) : Int) World.start =
        .fatal { opens := World.start.opens + j + 1, closeLog := World.start.closeLog }) ∧
    (∃ i, i < 4611686018427387904 ∧ secondFails (World.start.opens + i) = none) ∧
    NewConnectionPool Runtime.amd64 secondFails ((4611686018427387904 : Nat) : Int) World.start =
      .panicked .makesliceCapOutOfRange World.start :=
  ⟨⟨1, by decide, by decide⟩,
   (C9_factory_failure Runtime.amd64 secondFails 2 World.start ⟨1, by decide, by decide⟩).1
     (by decide) (by decide),
   ⟨1, by decide, by decide⟩,
   (C9_factory_failure Runtime.amd64 secondFails 4611686018427387904 World.start
     ⟨1, by decide, by decide⟩).2.1 (by decide)⟩

/-- C10: with `Get` and `Put` each split in their two atomic steps, in every
state reached from the pool `NewConnectionPool(n)` returns, `n ≥ 0`, by any
interleaving of such steps, with `Put` of arbitrary handles and no `Close`, the
permits plus the callers that took a permit and have not yet removed a handle
number at most `len(pool.connections)`; so whenever a caller reaches
`pool.connections[0]` the list is non-empty, and no step raises an
index-out-of-range panic.  The pool is returned whenever `n` is within the
capacity bounds of `make`. -/
theorem C10_index_in_bounds (rt : Runtime) (factory : Nat → Option DB) (n : Nat)
    (dbs : Nat → DB) (w : World)
    (hok : ∀ i, i < n → factory (w.opens + i) = some (dbs i)) :
    (n ≤ rt.maxSliceCap → n ≤ rt.maxChanCap →
      ∃ pool w1, NewConnectionPool rt factory (n : Int) w = .done w1 (pool, error.nil)) ∧
    ∀ pool w1 e, NewConnectionPool rt factory (n : Int) w = .done w1 (pool, e) →
      ∀ acts s, (Conc.init pool).run acts = some s →
        s.pool.channel.buf + s.getting ≤ s.pool.connections.length ∧
        (0 < s.getting → s.pool.connections ≠ []) ∧
        ∀ a s2, s.step a ≠ .panicked .indexOutOfRange s2 := by
  refine ⟨fun hs hc => ⟨_, _, newConnectionPool_ok rt factory n dbs w hok hs hc⟩, ?_⟩
  intro pool w1 e hbuilt acts s hs
  obtain ⟨-, -, hpool, -, -⟩ := newConnectionPool_built rt factory n dbs w w1 pool e hok hbuilt
  subst hpool
  have h0 := concInv_init (handles dbs n) (n : Int) n
  rw [handles_length] at h0
  have hinv := concInv_run acts _ s h0 hs
  have hsum := hinv.2
  refine ⟨by omega, ?_, fun a s2 => concInv_never_panics s s2 a _ hinv⟩
  intro hg hnil
  rw [hnil] at hsum
  simp only [List.length_nil] at hsum
  omega

/-- Witness for C10: a pool of one handle from a fresh world; one caller has
taken the permit and a second caller has appended a foreign handle without yet
sending its permit. -/
theorem C10_index_in_bounds_witness :
    (∀ i, i < 1 → goodFactory (World.start.opens + i) = some (id i)) ∧
    (∃ pool w1, NewConnectionPool Runtime.amd64 goodFactory ((1 : Nat) : Int) World.start =
      .done w1 (pool, error.nil)) ∧
    NewConnectionPool Runtime.amd64 goodFactory ((1 : Nat) : Int) World.start =
      .done { opens := 1, closeLog := [] }
        ({ connections := [⟨0⟩], maxConnections := 1,
           channel := { buf := 1, cap := 1, closed := false } }, error.nil) ∧
    (Conc.init { connections := [⟨0⟩], maxConnections := 1,
                 channel := { buf := 1, cap := 1, closed := false } }).run
        [.getRecv, .putLocked ⟨9⟩] =
      some { pool := { connections := [⟨0⟩, ⟨9⟩], maxConnections := 1,
                       channel := { buf := 0, cap := 1, closed := false } },
             getting := 1, putting := 1 } ∧
    0 + 1 ≤ [conn.mk 0, conn.mk 9].length ∧
    (0 < 1 → [conn.mk 0, conn.mk 9] ≠ []) ∧
    ∀ a s2,
      Conc.step { pool := { connections := [⟨0⟩, ⟨9⟩], maxConnections := 1,
                            channel := { buf := 0, cap := 1, closed := false } },
                  getting := 1, putting := 1 } a ≠ .panicked .indexOutOfRange s2 := by
  obtain ⟨hex, hall⟩ := C10_index_in_bounds Runtime.amd64 goodFactory 1 id World.start
    (fun i _ => by simp [goodFactory, World.start])
  have hp : NewConnectionPool Runtime.amd64 goodFactory ((1 : Nat) : Int) World.start =
      .done { opens := 1, closeLog := [] }
        ({ connections := [⟨0⟩], maxConnections := 1,
           channel := { buf := 1, cap := 1, closed := false } }, error.nil) := by decide
  exact ⟨fun i _ => by simp [goodFactory, World.start], hex (by decide) (by decide), hp,
    by decide,
    hall _ _ _ hp [.getRecv, .putLocked ⟨9⟩]
      { pool := { connections := [⟨0⟩, ⟨9⟩], maxConnections := 1,
                  channel := { buf := 0, cap := 1, closed := false } },
        getting := 1, putting := 1 } (by decide)⟩

end ConnPool
